import Mathlib

/-!
Verification development for the VisualSPHysics diffuse-particle engine
(`src/foamsimulator/DiffuseCalculator.cpp`).

The C++ code works on IEEE doubles; here all scalar arithmetic is embedded
in `ℚ`.  The irrational primitives used by the code (`std::sqrt` inside
`ops::magnitude`, `cos`, `sin`, `M_PI`) are abstracted into a record
`RealOps` of rational-valued functions; every theorem assumes only the
properties of those primitives that it actually needs (for instance
nonnegativity of the magnitude), and witnesses instantiate them on inputs
where the true values are rational.

Machine integers: the particle id counter `difId` is a C++ `long`
(modelled as unbounded `ℤ`); the per-particle storage `diffuseIds` /
`ppIds` is `std::vector<int>`, so the stored id is the counter reduced to
32-bit two's complement, modelled by `wrap32`.
-/

/-- A 3-vector of rationals, modelling `std::array<double, 3>`. -/
structure Vec3 where
  x : ℚ
  y : ℚ
  z : ℚ
deriving DecidableEq

namespace ops

/-- Componentwise difference, modelling `ops::substract`. -/
def substract (a b : Vec3) : Vec3 := ⟨a.x - b.x, a.y - b.y, a.z - b.z⟩

/-- Dot product, modelling `ops::dotProduct`. -/
def dotProduct (a b : Vec3) : ℚ := a.x * b.x + a.y * b.y + a.z * b.z

end ops

/-- The irrational numeric primitives of the C++ code, as abstract
rational-valued operations: `mag` models `ops::magnitude` (Euclidean norm
via `std::sqrt`), `sqrtQ` models `std::sqrt`, `cosQ`/`sinQ` model
`cos`/`sin`, and `piQ` models `M_PI`. -/
structure RealOps where
  mag : Vec3 → ℚ
  sqrtQ : ℚ → ℚ
  cosQ : ℚ → ℚ
  sinQ : ℚ → ℚ
  piQ : ℚ

/-- Modelling `ops::normalize`: divide a vector by its magnitude. -/
def RealOps.normalize (R : RealOps) (v : Vec3) : Vec3 :=
  ⟨v.x / R.mag v, v.y / R.mag v, v.z / R.mag v⟩

/-- `DiffuseCalculator::solveEq` (line 157): z-coordinate of a point of
the plane through `p` with normal `v`, at plane coordinates `(x, y)`. -/
def solveEq (px py pz vx vy vz x y : ℚ) : ℚ :=
  ((-(x - px) * vx - (y - py) * vy) / vz) + pz

/-- `DiffuseCalculator::phi` (line 68), the clamping function. -/
def phi (I tmin tmax : ℚ) : ℚ :=
  (min I tmax - min I tmin) / (tmax - tmin)

/-- `DiffuseCalculator::Wwendland` (line 82), the Wendland quintic kernel. -/
def Wwendland (R : RealOps) (xij : Vec3) (h : ℚ) : ℚ :=
  if 0 ≤ R.mag xij / h ∧ R.mag xij / h ≤ 2 then
    (21 / (16 * R.piQ * h * h * h)) * (1 - R.mag xij / h / 2) * (1 - R.mag xij / h / 2) *
      (1 - R.mag xij / h / 2) * (1 - R.mag xij / h / 2) * (2 * (R.mag xij / h) + 1)
  else 0

/-- The numeric fields of `SimulationParams` relevant to the diffuse
computation (file paths, filename widths and output toggles are omitted:
they only steer I/O).  `LIFEFIME` keeps the source's spelling. -/
structure SimulationParams where
  MINX : ℚ
  MAXX : ℚ
  MINY : ℚ
  MAXY : ℚ
  MINZ : ℚ
  MAXZ : ℚ
  h : ℚ
  mass : ℚ
  MINTA : ℚ
  MAXTA : ℚ
  MINWC : ℚ
  MAXWC : ℚ
  MINK : ℚ
  MAXK : ℚ
  KTA : ℚ
  KWC : ℚ
  SPRAY : ℚ
  BUBBLES : ℚ
  LIFEFIME : ℚ
  KB : ℚ
  KD : ℚ
deriving DecidableEq

/-- A fluid particle as seen by the update pass: position and velocity. -/
structure FluidP where
  pos : Vec3
  vel : Vec3
deriving DecidableEq

/-- A source fluid particle entering the clamp/spawn passes.  `ItaRaw` and
`wcRaw` are the raw (pre-clamp) trapped-air and wave-crest sums produced
by passes 1 and 3; the energy is recomputed from `vel` below. -/
structure FluidSrc where
  pos : Vec3
  vel : Vec3
  ItaRaw : ℚ
  wcRaw : ℚ
deriving DecidableEq

/-- A persistent diffuse particle: the structure-of-arrays
`ppPosit`/`ppVel`/`ppIds`/`ppTTL`/`ppDensity` gathered in one record. -/
structure DiffuseP where
  pos : Vec3
  vel : Vec3
  id : ℤ
  ttl : ℤ
  density : ℚ
deriving DecidableEq

/-- Reduction of the 64-bit id counter to 32-bit two's complement, as
performed by storing the `long difId` into `std::vector<int> diffuseIds`
(line 488).  This integer narrowing is not undefined behavior: it is
implementation-defined before C++20 and mandated modular since C++20,
and is the two's-complement wrap on every supported compiler. -/
def wrap32 (n : ℤ) : ℤ := (n + 2 ^ 31) % 2 ^ 32 - 2 ^ 31

/-- Truncation toward zero, as performed by the C++ double-to-int
conversion when storing `ndiffuse[i] * sp.LIFEFIME` into the `int`
vector `diffuseTTL` (line 491). -/
def truncQ (q : ℚ) : ℤ := if 0 ≤ q then ⌊q⌋ else ⌈q⌉

/-- Raw kinetic energy of a source particle (line 282):
`0.5 * mass * (vx² + vy² + vz²)`. -/
def energyRaw (P : SimulationParams) (s : FluidSrc) : ℚ :=
  1 / 2 * P.mass * ops.dotProduct s.vel s.vel

/-- Stage 4+5 combined (lines 377-401): the number of diffuse particles
generated by a source particle, `floor(energy * (KTA*Ita + KWC*waveCrest)
* tout)` with all three fields clamped by `phi` first.  The source stores
the floor into `std::vector<int> ndiffuse` (line 214), and the
double-to-int conversion at line 398 is undefined when the floor lies
outside `[-2^31, 2^31)`; within that range the stored `int` equals the
mathematical floor computed here, and every statement about spawning
below confines itself to that range. -/
def ndiffuseOf (P : SimulationParams) (dt : ℚ) (s : FluidSrc) : ℤ :=
  ⌊phi (energyRaw P s) P.MINK P.MAXK *
    (P.KTA * phi s.ItaRaw P.MINTA P.MAXTA + P.KWC * phi s.wcRaw P.MINWC P.MAXWC) * dt⌋

/-- First spawn basis vector `e1` (lines 442-456): branch on the first
nonzero velocity component and normalize the point returned by
`solveEq`. -/
def e1Of (R : RealOps) (pos vel : Vec3) : Vec3 :=
  if vel.x ≠ 0 then
    R.normalize ⟨solveEq pos.z pos.y pos.x vel.z vel.y vel.x 0 1, 1, 0⟩
  else if vel.y ≠ 0 then
    R.normalize ⟨1, solveEq pos.x pos.z pos.y vel.x vel.z vel.y 1 0, 0⟩
  else
    R.normalize ⟨1, 0, solveEq pos.x pos.y pos.z vel.x vel.y vel.z 1 0⟩

/-- The cross-product-like expression of lines 460-462, exactly as
written in the source (its middle component is the negation of the
standard cross product's). -/
def crossCode (a v : Vec3) : Vec3 :=
  ⟨a.y * v.z - v.y * a.z, a.x * v.z - v.x * a.z, a.x * v.y - v.x * a.y⟩

/-- Second spawn basis vector `e2` (line 460): normalization of
`crossCode e1 vel`. -/
def e2Of (R : RealOps) (pos vel : Vec3) : Vec3 :=
  R.normalize (crossCode (e1Of R pos vel) vel)

/-- One newborn diffuse particle (lines 467-494): cylindrical sampling
around the source velocity with uniform draws `u1 u2 u3`, id taken from
the shared counter (stored as 32-bit), ttl `= ndiffuse * LIFEFIME`. -/
def mkNewborn (R : RealOps) (P : SimulationParams) (dt u1 u2 u3 : ℚ)
    (difId nd : ℤ) (s : FluidSrc) : DiffuseP :=
  let pos := s.pos
  let vel := s.vel
  let e1 := e1Of R pos vel
  let e2 := e2Of R pos vel
  let nvel := R.normalize vel
  let hAlong := u1 * (R.mag vel * dt) * (1 / 2)
  let r := P.h * R.sqrtQ u2
  let th := u3 * 2 * R.piQ
  { pos := ⟨pos.x + r * R.cosQ th * e1.x + r * R.sinQ th * e2.x + hAlong * nvel.x,
            pos.y + r * R.cosQ th * e1.y + r * R.sinQ th * e2.y + hAlong * nvel.y,
            pos.z + r * R.cosQ th * e1.z + r * R.sinQ th * e2.z + hAlong * nvel.z⟩
    vel := ⟨r * R.cosQ th * e1.x + r * R.sinQ th * e2.x + vel.x,
            r * R.cosQ th * e1.y + r * R.sinQ th * e2.y + vel.y,
            r * R.cosQ th * e1.z + r * R.sinQ th * e2.z + vel.z⟩
    id := wrap32 difId
    ttl := truncQ ((nd : ℚ) * P.LIFEFIME)
    density := 0 }

/-- Stage 6 for one source particle (lines 434-496): spawn `ndiffuse`
newborns when `ndiffuse >= 1`, consuming three random draws each.
`idif0` is the index of the first slot in the flat random array and
`difId0` the value of the id counter on entry. -/
def spawnForSource (R : RealOps) (P : SimulationParams) (dt : ℚ) (u : ℕ → ℚ)
    (idif0 : ℕ) (difId0 : ℤ) (s : FluidSrc) : List DiffuseP :=
  let nd := ndiffuseOf P dt s
  if 1 ≤ nd then
    (List.range nd.toNat).map fun j =>
      mkNewborn R P dt (u ((idif0 + j) * 3)) (u ((idif0 + j) * 3 + 1))
        (u ((idif0 + j) * 3 + 2)) (difId0 + j) nd s
  else []

/-- Stage 6 over all source particles in spawn order, threading the
random-slot index `idif` and the id counter `difId` exactly as the
increments inside the loop body do. -/
def spawnFrame (R : RealOps) (P : SimulationParams) (dt : ℚ) (u : ℕ → ℚ) :
    ℕ → ℤ → List FluidSrc → List DiffuseP
  | _, _, [] => []
  | idif0, difId0, s :: ss =>
    let nd := (ndiffuseOf P dt s).toNat
    spawnForSource R P dt u idif0 difId0 s ++
      spawnFrame R P dt u (idif0 + nd) (difId0 + nd) ss

/-- Number of diffuse particles actually spawned in a frame: each source
contributes `ndiffuse` when `ndiffuse >= 1` and nothing otherwise. -/
def totalSpawn (P : SimulationParams) (dt : ℚ) (srcs : List FluidSrc) : ℕ :=
  (srcs.map fun s => (ndiffuseOf P dt s).toNat).sum

/-- Density of a diffuse particle (lines 530-537 and 505-516): the count
of fluid particles of the surrounding buckets within distance `h`. -/
def densityCount (R : RealOps) (h : ℚ) (neigh : List FluidP) (x : Vec3) : ℕ :=
  (neigh.filter fun pj => decide (R.mag (ops.substract x pj.pos) ≤ h)).length

/-- Numerator of the smoothed fluid velocity (lines 540-549). -/
def smoothedNum (R : RealOps) (h : ℚ) (neigh : List FluidP) (x : Vec3) : Vec3 :=
  neigh.foldl
    (fun acc pj =>
      let tval := Wwendland R (ops.substract x pj.pos) h
      ⟨acc.x + pj.vel.x * tval, acc.y + pj.vel.y * tval, acc.z + pj.vel.z * tval⟩)
    ⟨0, 0, 0⟩

/-- Denominator of the smoothed fluid velocity (line 547): sum of the
Wendland weights over the surrounding buckets. -/
def smoothedDen (R : RealOps) (h : ℚ) (neigh : List FluidP) (x : Vec3) : ℚ :=
  (neigh.map fun pj => Wwendland R (ops.substract x pj.pos) h).sum

/-- Spray branch of the update pass (lines 553-558): ballistic step with
gravity `9.81`, then position integrated with the updated velocity. -/
def sprayUpdate (dt density : ℚ) (p : DiffuseP) : DiffuseP :=
  let v : Vec3 := ⟨p.vel.x, p.vel.y, p.vel.z + -(981 / 100) * dt⟩
  { pos := ⟨p.pos.x + dt * v.x, p.pos.y + dt * v.y, p.pos.z + dt * v.z⟩
    vel := v, id := p.id, ttl := p.ttl, density := density }

/-- Bubble branch of the update pass (lines 560-567): drag toward the
smoothed fluid velocity `nb` plus upward buoyancy. -/
def bubbleUpdate (P : SimulationParams) (dt density : ℚ) (nb : Vec3) (p : DiffuseP) : DiffuseP :=
  let v : Vec3 :=
    ⟨p.vel.x + dt * (P.KD * (nb.x - p.vel.x) / dt),
     p.vel.y + dt * (P.KD * (nb.y - p.vel.y) / dt),
     p.vel.z + dt * (-P.KB * -(981 / 100) + P.KD * (nb.z - p.vel.z) / dt)⟩
  { pos := ⟨p.pos.x + dt * v.x, p.pos.y + dt * v.y, p.pos.z + dt * v.z⟩
    vel := v, id := p.id, ttl := p.ttl, density := density }

/-- Foam branch of the update pass (lines 569-575): advect with the
smoothed fluid velocity `nb`. -/
def foamUpdate (dt density : ℚ) (nb : Vec3) (p : DiffuseP) : DiffuseP :=
  { pos := ⟨p.pos.x + dt * nb.x, p.pos.y + dt * nb.y, p.pos.z + dt * nb.z⟩
    vel := nb, id := p.id, ttl := p.ttl, density := density }

/-- Stage 8 (lines 522-577) for one persistent particle: recompute the
density, accumulate the smoothed velocity only when `density >= SPRAY`,
then branch into spray / bubble / foam on the density thresholds.
`neighF` models `getSurroundingBuckets`, giving the fluid particles of
the 27 buckets around a point. -/
def updateParticle (R : RealOps) (P : SimulationParams) (dt : ℚ)
    (neighF : Vec3 → List FluidP) (p : DiffuseP) : DiffuseP :=
  let neigh := neighF p.pos
  let density : ℚ := (densityCount R P.h neigh p.pos : ℚ)
  let num := if P.SPRAY ≤ density then smoothedNum R P.h neigh p.pos else ⟨0, 0, 0⟩
  let den := if P.SPRAY ≤ density then smoothedDen R P.h neigh p.pos else 0
  if density < P.SPRAY then
    sprayUpdate dt density p
  else if P.BUBBLES < density then
    bubbleUpdate P dt density ⟨num.x / den, num.y / den, num.z / den⟩ p
  else
    foamUpdate dt density ⟨num.x / den, num.y / den, num.z / den⟩ p

/-- TTL decrement of stage 9 (lines 587-589): decrement exactly when
`SPRAY < density` and `density < BUBBLES` (both strict in the source). -/
def ttlStep (P : SimulationParams) (p : DiffuseP) : DiffuseP :=
  if P.SPRAY < p.density ∧ p.density < P.BUBBLES then
    { p with ttl := p.ttl - 1 }
  else p

/-- Survival test of stage 9 (lines 593-595): keep a particle unless its
ttl is negative or some position component is at or beyond the domain
box on either side. -/
def keepB (P : SimulationParams) (p : DiffuseP) : Bool :=
  decide (¬(p.ttl < 0 ∨
    p.pos.x ≤ P.MINX ∨ p.pos.y ≤ P.MINY ∨ p.pos.z ≤ P.MINZ ∨
    P.MAXX ≤ p.pos.x ∨ P.MAXY ≤ p.pos.y ∨ P.MAXZ ≤ p.pos.z))

/-- Stage 9 (lines 586-608): decrement foam ttls, then compact the pool,
keeping exactly the particles passing `keepB`. -/
def cullStep (P : SimulationParams) (pool : List DiffuseP) : List DiffuseP :=
  (pool.map (ttlStep P)).filter (keepB P)

/-- Stages 8-10 on the persistent pool (lines 522-623): advect every
persistent particle, cull, then append this frame's newborns with no
further checks. -/
def framePersist (R : RealOps) (P : SimulationParams) (dt : ℚ)
    (neighF : Vec3 → List FluidP) (pool newborns : List DiffuseP) : List DiffuseP :=
  cullStep P (pool.map (updateParticle R P dt neighF)) ++ newborns

/-- Particle type tag used by the emitters (lines 647-652): 0 spray,
2 bubble, 1 foam. -/
def ttypeOf (P : SimulationParams) (density : ℚ) : ℤ :=
  if density < P.SPRAY then 0 else if P.BUBBLES < density then 2 else 1

/-- The text emitter's content (lines 644-654): one `(position, type)`
entry per particle of the pool, in pool order. -/
def emitText (P : SimulationParams) (pool : List DiffuseP) : List (Vec3 × ℤ) :=
  pool.map fun p => (p.pos, ttypeOf P p.density)

/-- One entry of the time-step schedule `sp.timesteps`. -/
structure TimeOut where
  nstep : ℤ
  tout : ℚ
deriving DecidableEq

/-- The schedule-index advance the code performs once per frame
(lines 184-186): an `if`, moving the index past at most one entry. -/
def tstepIf (ts : List TimeOut) (n : ℤ) (idx : ℕ) : ℕ :=
  if idx + 1 < ts.length ∧ (ts.getD (idx + 1) ⟨0, 0⟩).nstep < n then idx + 1 else idx

/-- The schedule-index advance the spec describes: a while loop, moving
the index past every entry the frame has passed.  Structured with
explicit fuel so that it evaluates; `ts.length` fuel always suffices
since the index strictly increases and stays below `ts.length`. -/
def tstepWhileFuel (ts : List TimeOut) (n : ℤ) : ℕ → ℕ → ℕ
  | 0, idx => idx
  | fuel + 1, idx =>
    if idx + 1 < ts.length ∧ (ts.getD (idx + 1) ⟨0, 0⟩).nstep < n then
      tstepWhileFuel ts n fuel (idx + 1)
    else idx

/-- Schedule index after the code has processed `m` frames starting at
frame `nstart` (the `m`-th processed frame is `nstart + m - 1`). -/
def idxAfterIf (ts : List TimeOut) (nstart : ℤ) : ℕ → ℕ
  | 0 => 0
  | m + 1 => tstepIf ts (nstart + m) (idxAfterIf ts nstart m)

/-- Schedule index after `m` frames under the spec's while-loop
semantics. -/
def idxAfterWhile (ts : List TimeOut) (nstart : ℤ) : ℕ → ℕ
  | 0 => 0
  | m + 1 => tstepWhileFuel ts (nstart + m) ts.length (idxAfterWhile ts nstart m)

/-- The ids assigned to newborns over a run: frames are given as
`(dt, sources)` pairs, the id counter `c` starts at 0 at run start
(`long difId = 0`, line 173) and is threaded across frames. -/
def runNewbornIds (R : RealOps) (P : SimulationParams) (u : ℕ → ℚ) :
    ℤ → List (ℚ × List FluidSrc) → List ℤ
  | _, [] => []
  | c, (dt, srcs) :: rest =>
    (spawnFrame R P dt u 0 c srcs).map (fun p => p.id) ++
      runNewbornIds R P u (c + totalSpawn P dt srcs) rest

/-- Total number of newborns over a run. -/
def runTotal (P : SimulationParams) : List (ℚ × List FluidSrc) → ℕ
  | [] => 0
  | (dt, srcs) :: rest => totalSpawn P dt srcs + runTotal P rest

/-- A trivial instantiation of the abstract numeric primitives, used by
witnesses whose conclusions do not depend on their values. -/
def R0 : RealOps := ⟨fun _ => 0, fun _ => 0, fun _ => 0, fun _ => 0, 0⟩

/-- A magnitude function agreeing with the Euclidean norm on the vector
`(3/4, 1, 0)` (whose norm `5/4` is rational), used to evaluate the spawn
basis construction at a concrete input. -/
def magW : Vec3 → ℚ := fun v => if v = ⟨3 / 4, 1, 0⟩ then 5 / 4 else 1

/-- Primitives for the spawn-basis evaluation: exact magnitude on the
input actually reached. -/
def R7 : RealOps := ⟨magW, fun _ => 0, fun _ => 0, fun _ => 0, 0⟩

/-- The all-zero random stream, for witnesses. -/
def u0 : ℕ → ℚ := fun _ => 0

/-- A baseline parameter set with a sane domain box, unit kernel radius,
unit clamp windows and the usual threshold ordering. -/
def baseP : SimulationParams :=
  { MINX := 0, MAXX := 10, MINY := 0, MAXY := 10, MINZ := 0, MAXZ := 10
    h := 1, mass := 1, MINTA := 0, MAXTA := 1, MINWC := 0, MAXWC := 1
    MINK := 0, MAXK := 1, KTA := 1, KWC := 1, SPRAY := 6, BUBBLES := 20
    LIFEFIME := 1, KB := 1, KD := 1 }

/-- Parameters with `SPRAY = 2`, `BUBBLES = 6`, exposing the boundary
`density = SPRAY`. -/
def P4 : SimulationParams := { baseP with SPRAY := 2, BUBBLES := 6 }

/-- A diffuse particle sitting exactly at the foam boundary
`density = SPRAY` of `P4`. -/
def pFoamEdge : DiffuseP := ⟨⟨5, 5, 5⟩, ⟨0, 0, 0⟩, 0, 5, 2⟩

/-- Parameters for the pure-spray scenario: `KB = KD = 0`. -/
def P6 : SimulationParams := { baseP with KB := 0, KD := 0 }

/-- A diffuse particle at rest at the origin. -/
def pRest : DiffuseP := ⟨⟨0, 0, 0⟩, ⟨0, 0, 0⟩, 0, 0, 0⟩

/-- Parameters with birth-rate coefficient `KTA = 2^31 - 1` (= `INT_MAX`)
and all clamped fields equal to 1, so a source spawns `floor(KTA * dt)`
newborns — a count always representable in the source's `int` storage
for `dt ≤ 1`. -/
def P9 : SimulationParams := { baseP with KTA := 2 ^ 31 - 1, KWC := 0, mass := 2 }

/-- The source particle driving the `P9` spawn: unit speed (energy
`1/2 * 2 * 1 = 1`, clamping to 1) and saturated trapped air. -/
def src9 : FluidSrc := ⟨⟨0, 0, 0⟩, ⟨1, 0, 0⟩, 2, 0⟩

/-- The newborn ids of a two-frame `P9` run: the first frame (`tout = 1`)
spawns `2^31 - 1` newborns and the second (`tout = 2/(2^31 - 1)`) spawns
2 more, so every per-source count fits in an `int` while the 64-bit id
counter crosses `2^31` during the second frame. -/
def ids9 : List ℤ :=
  runNewbornIds R0 P9 u0 0 [(1, [src9]), (2 / (2 ^ 31 - 1), [src9])]

/-- A generic source particle for witnesses. -/
def srcW : FluidSrc := ⟨⟨1, 1, 1⟩, ⟨1, 0, 0⟩, 1 / 2, 0⟩

/-- An interior diffuse particle surviving the cull. -/
def pIn : DiffuseP := ⟨⟨5, 5, 5⟩, ⟨0, 0, 0⟩, 3, 2, 0⟩

/-- A newborn placed outside the domain box of `baseP`. -/
def nbOut : DiffuseP := ⟨⟨42, 5, 5⟩, ⟨0, 0, 0⟩, 7, 4, 0⟩

/-- The schedule exhibiting the if/while divergence: starting the run at
frame 5 has already passed both later entries. -/
def ts0 : List TimeOut := [⟨0, 1⟩, ⟨2, 2⟩, ⟨3, 3⟩]

/-! ## Helper lemmas about the clamping function -/

theorem phi_eq_zero_of_le {I tmin tmax : ℚ} (hw : tmin < tmax) (hI : I ≤ tmin) :
    phi I tmin tmax = 0 := by
  unfold phi
  rw [min_eq_left (hI.trans hw.le), min_eq_left hI, sub_self, zero_div]

theorem phi_ramp {I tmin tmax : ℚ} (h1 : tmin ≤ I) (h2 : I ≤ tmax) :
    phi I tmin tmax = (I - tmin) / (tmax - tmin) := by
  unfold phi
  rw [min_eq_left h2, min_eq_right h1]

theorem phi_eq_one_of_le {I tmin tmax : ℚ} (hw : tmin < tmax) (hI : tmax ≤ I) :
    phi I tmin tmax = 1 := by
  unfold phi
  rw [min_eq_right hI, min_eq_right (hw.le.trans hI), div_self (sub_ne_zero.mpr hw.ne')]

theorem phi_nonneg {tmin tmax : ℚ} (I : ℚ) (hw : tmin < tmax) : 0 ≤ phi I tmin tmax := by
  unfold phi
  apply div_nonneg _ (by linarith)
  have h := min_le_min (le_refl I) hw.le
  linarith

theorem phi_le_one {tmin tmax : ℚ} (I : ℚ) (hw : tmin < tmax) : phi I tmin tmax ≤ 1 := by
  unfold phi
  rw [div_le_one (by linarith)]
  rcases le_or_lt I tmin with h | h
  · rw [min_eq_left (h.trans hw.le), min_eq_left h]
    linarith
  · rw [min_eq_right h.le]
    have h2 := min_le_right I tmax
    linarith

/-- C3: for every `tmin < tmax` the clamp `phi` maps `I ≤ tmin` to 0,
`I ≥ tmax` to 1 and the interval in between to the linear ramp, so its
output lies in `[0,1]`; in particular the inputs `MINTA-1`, `MINTA`,
`(MINTA+MAXTA)/2`, `MAXTA`, `MAXTA+1` yield `0, 0, 1/2, 1, 1`. -/
theorem c3_phi_clamp (I tmin tmax : ℚ) (hw : tmin < tmax) :
    (I ≤ tmin → phi I tmin tmax = 0) ∧
    (tmin ≤ I → I ≤ tmax → phi I tmin tmax = (I - tmin) / (tmax - tmin)) ∧
    (tmax ≤ I → phi I tmin tmax = 1) ∧
    0 ≤ phi I tmin tmax ∧ phi I tmin tmax ≤ 1 ∧
    phi (tmin - 1) tmin tmax = 0 ∧
    phi tmin tmin tmax = 0 ∧
    phi ((tmin + tmax) / 2) tmin tmax = 1 / 2 ∧
    phi tmax tmin tmax = 1 ∧
    phi (tmax + 1) tmin tmax = 1 := by
  refine ⟨fun h => phi_eq_zero_of_le hw h, fun h1 h2 => phi_ramp h1 h2,
    fun h => phi_eq_one_of_le hw h, phi_nonneg I hw, phi_le_one I hw,
    phi_eq_zero_of_le hw (by linarith), phi_eq_zero_of_le hw le_rfl, ?_,
    phi_eq_one_of_le hw le_rfl, phi_eq_one_of_le hw (by linarith)⟩
  rw [phi_ramp (by linarith) (by linarith),
    div_eq_div_iff (by linarith) (by norm_num)]
  ring

theorem c3_phi_clamp_witness :
    (0 : ℚ) < 1 ∧ phi ((0 + 1) / 2 : ℚ) 0 1 = 1 / 2 :=
  ⟨by norm_num, (c3_phi_clamp ((0 + 1) / 2) 0 1 (by norm_num)).2.2.2.2.2.2.2.1⟩

/-! ## Spawn counting -/

theorem ndiffuseOf_nonneg (P : SimulationParams) (dt : ℚ) (s : FluidSrc)
    (hk1 : 0 ≤ P.KTA) (hk2 : 0 ≤ P.KWC) (hdt : 0 ≤ dt)
    (hta : P.MINTA < P.MAXTA) (hwc : P.MINWC < P.MAXWC) (hk : P.MINK < P.MAXK) :
    0 ≤ ndiffuseOf P dt s := by
  apply Int.floor_nonneg.mpr
  have h1 := phi_nonneg (energyRaw P s) hk
  have h2 := phi_nonneg s.ItaRaw hta
  have h3 := phi_nonneg s.wcRaw hwc
  exact mul_nonneg
    (mul_nonneg h1 (add_nonneg (mul_nonneg hk1 h2) (mul_nonneg hk2 h3))) hdt

theorem spawnForSource_length (R : RealOps) (P : SimulationParams) (dt : ℚ)
    (u : ℕ → ℚ) (i : ℕ) (c : ℤ) (s : FluidSrc) :
    (spawnForSource R P dt u i c s).length = (ndiffuseOf P dt s).toNat := by
  unfold spawnForSource
  by_cases h : 1 ≤ ndiffuseOf P dt s
  · simp [h]
  · simp [h]
    omega

theorem spawnFrame_length (R : RealOps) (P : SimulationParams) (dt : ℚ) (u : ℕ → ℚ)
    (srcs : List FluidSrc) : ∀ (i : ℕ) (c : ℤ),
    (spawnFrame R P dt u i c srcs).length = totalSpawn P dt srcs := by
  induction srcs with
  | nil => intro i c; rfl
  | cons s ss ih =>
    intro i c
    simp [spawnFrame, totalSpawn, spawnForSource_length, ih i c] at *
    simp [ih]

/-- C2: for every frame and every source particle, after clamping,
`ndiffuse = floor(energy * (KTA*Ita + KWC*waveCrest) * dt)` with `dt` the
frame's `tout`; `ndiffuse ≥ 0` (for nonnegative birth-rate coefficients
and time step and well-ordered clamp windows, cf. the startup validation
of §7); and the number of newborn particles created in the frame equals
the sum of `ndiffuse` over the sources. -/
theorem c2_ndiffuse_count (R : RealOps) (P : SimulationParams) (dt : ℚ) (u : ℕ → ℚ)
    (srcs : List FluidSrc)
    (hk1 : 0 ≤ P.KTA) (hk2 : 0 ≤ P.KWC) (hdt : 0 ≤ dt)
    (hta : P.MINTA < P.MAXTA) (hwc : P.MINWC < P.MAXWC) (hk : P.MINK < P.MAXK) :
    (∀ s ∈ srcs,
      ndiffuseOf P dt s =
        ⌊phi (energyRaw P s) P.MINK P.MAXK *
          (P.KTA * phi s.ItaRaw P.MINTA P.MAXTA +
            P.KWC * phi s.wcRaw P.MINWC P.MAXWC) * dt⌋ ∧
      0 ≤ ndiffuseOf P dt s) ∧
    ((spawnFrame R P dt u 0 0 srcs).length : ℤ) = (srcs.map (ndiffuseOf P dt)).sum := by
  constructor
  · intro s _
    exact ⟨rfl, ndiffuseOf_nonneg P dt s hk1 hk2 hdt hta hwc hk⟩
  · rw [spawnFrame_length]
    unfold totalSpawn
    induction srcs with
    | nil => rfl
    | cons s ss ih =>
      simp only [List.map_cons, List.sum_cons]
      rw [Nat.cast_add, Int.toNat_of_nonneg (ndiffuseOf_nonneg P dt s hk1 hk2 hdt hta hwc hk), ih]

theorem c2_ndiffuse_count_witness :
    ((spawnFrame R0 baseP 1 u0 0 0 [srcW]).length : ℤ) =
      ([srcW].map (ndiffuseOf baseP 1)).sum :=
  (c2_ndiffuse_count R0 baseP 1 u0 [srcW] (by norm_num [baseP]) (by norm_num [baseP])
    (by norm_num) (by norm_num [baseP]) (by norm_num [baseP]) (by norm_num [baseP])).2

/-! ## The cull step -/

theorem mem_cullStep_iff (P : SimulationParams) (pool : List DiffuseP) (p : DiffuseP) :
    p ∈ cullStep P pool ↔
      p ∈ pool.map (ttlStep P) ∧
      (0 ≤ p.ttl ∧ P.MINX < p.pos.x ∧ p.pos.x < P.MAXX ∧ P.MINY < p.pos.y ∧
        p.pos.y < P.MAXY ∧ P.MINZ < p.pos.z ∧ p.pos.z < P.MAXZ) := by
  unfold cullStep keepB
  rw [List.mem_filter]
  apply and_congr_right
  intro _
  rw [decide_eq_true_eq]
  constructor
  · intro h
    push_neg at h
    tauto
  · intro h
    push_neg
    tauto

/-- C1: a particle of the post-decrement pool survives the cull if and
only if its ttl is nonnegative and its position is strictly inside the
domain box on every axis; so every survivor satisfies these bounds and
every violator is removed. -/
theorem c1_cull_invariant (P : SimulationParams) (pool : List DiffuseP) (p : DiffuseP)
    (hp : p ∈ pool.map (ttlStep P)) :
    p ∈ cullStep P pool ↔
      (0 ≤ p.ttl ∧ P.MINX < p.pos.x ∧ p.pos.x < P.MAXX ∧ P.MINY < p.pos.y ∧
        p.pos.y < P.MAXY ∧ P.MINZ < p.pos.z ∧ p.pos.z < P.MAXZ) := by
  rw [mem_cullStep_iff]
  simp [hp]

theorem c1_cull_invariant_witness :
    pIn ∈ [pIn].map (ttlStep baseP) ∧ pIn ∈ cullStep baseP [pIn] :=
  ⟨by decide, (c1_cull_invariant baseP [pIn] pIn (by decide)).mpr (by decide)⟩

/-! ## TTL decrement condition -/

/-- C4 counterexample: at `density = SPRAY` (parameters `SPRAY = 2`,
`BUBBLES = 6`) the particle is classified foam by the code's own type
tagging, yet `ttlStep` leaves its ttl unchanged — the decrement condition
is strict on both sides, not `SPRAY ≤ density ≤ BUBBLES`. -/
theorem c4_ttl_boundary_cx :
    ttlStep P4 pFoamEdge = pFoamEdge ∧
    P4.SPRAY ≤ pFoamEdge.density ∧ pFoamEdge.density ≤ P4.BUBBLES ∧
    ttypeOf P4 pFoamEdge.density = 1 ∧
    pFoamEdge.ttl - 1 ≠ pFoamEdge.ttl := by
  refine ⟨by decide, by decide, by decide, by decide, by decide⟩

/-- C4 amended: a persistent particle's ttl is decremented exactly when
its recomputed density lies strictly between SPRAY and BUBBLES
(`SPRAY < density < BUBBLES`); in every other case the particle, and in
all cases every other field, is unchanged. -/
theorem c4_ttl_strict_foam (P : SimulationParams) (p : DiffuseP) :
    ((ttlStep P p).ttl = p.ttl - 1 ↔ P.SPRAY < p.density ∧ p.density < P.BUBBLES) ∧
    (ttlStep P p).pos = p.pos ∧ (ttlStep P p).vel = p.vel ∧ (ttlStep P p).id = p.id ∧
    (ttlStep P p).density = p.density ∧
    (¬(P.SPRAY < p.density ∧ p.density < P.BUBBLES) → ttlStep P p = p) := by
  unfold ttlStep
  by_cases hc : P.SPRAY < p.density ∧ p.density < P.BUBBLES <;> simp [hc]
  omega

theorem c4_ttl_strict_foam_witness : ttlStep baseP pRest = pRest :=
  (c4_ttl_strict_foam baseP pRest).2.2.2.2.2 (by decide)

/-! ## Degenerate cases of the update pass -/

theorem Wwendland_nonneg {R : RealOps} {xij : Vec3} {h : ℚ}
    (hpi : 0 < R.piQ) (hh : 0 < h) : 0 ≤ Wwendland R xij h := by
  unfold Wwendland
  split
  · rename_i hq
    have h1 : (0 : ℚ) ≤ 21 / (16 * R.piQ * h * h * h) := by positivity
    have h2 : (0 : ℚ) ≤ 1 - R.mag xij / h / 2 := by linarith [hq.2]
    have h3 : (0 : ℚ) ≤ 2 * (R.mag xij / h) + 1 := by linarith [hq.1]
    exact mul_nonneg (mul_nonneg (mul_nonneg (mul_nonneg (mul_nonneg h1 h2) h2) h2) h2) h3
  · exact le_rfl

theorem Wwendland_pos {R : RealOps} {xij : Vec3} {h : ℚ}
    (hpi : 0 < R.piQ) (hh : 0 < h) (hmag0 : 0 ≤ R.mag xij) (hmagh : R.mag xij ≤ h) :
    0 < Wwendland R xij h := by
  have hq1 : 0 ≤ R.mag xij / h := div_nonneg hmag0 hh.le
  have hq2 : R.mag xij / h ≤ 1 := (div_le_one hh).mpr hmagh
  unfold Wwendland
  rw [if_pos ⟨hq1, by linarith⟩]
  have h1 : (0 : ℚ) < 21 / (16 * R.piQ * h * h * h) := by positivity
  have h2 : (0 : ℚ) < 1 - R.mag xij / h / 2 := by linarith
  have h3 : (0 : ℚ) < 2 * (R.mag xij / h) + 1 := by linarith
  exact mul_pos (mul_pos (mul_pos (mul_pos (mul_pos h1 h2) h2) h2) h2) h3

theorem le_sum_of_mem_of_nonneg {l : List ℚ} {a : ℚ}
    (ha : a ∈ l) (hl : ∀ x ∈ l, 0 ≤ x) : a ≤ l.sum := by
  induction l with
  | nil => cases ha
  | cons b bs ih =>
    rcases List.mem_cons.mp ha with rfl | hmem
    · have hs : 0 ≤ bs.sum :=
        List.sum_nonneg fun x hx => hl x (List.mem_cons_of_mem a hx)
      simp only [List.sum_cons]
      linarith
    · have hb : 0 ≤ b := hl b (List.mem_cons_self b bs)
      have := ih hmem fun x hx => hl x (List.mem_cons_of_mem b hx)
      simp only [List.sum_cons]
      linarith

theorem smoothedDen_pos {R : RealOps} {h : ℚ} {neigh : List FluidP} {x : Vec3}
    (hpi : 0 < R.piQ) (hh : 0 < h) (hmag : ∀ v, 0 ≤ R.mag v)
    (hex : ∃ pj ∈ neigh, R.mag (ops.substract x pj.pos) ≤ h) :
    0 < smoothedDen R h neigh x := by
  obtain ⟨pj, hpj, hle⟩ := hex
  have hpos := Wwendland_pos hpi hh (hmag _) hle
  have hmem : Wwendland R (ops.substract x pj.pos) h ∈
      neigh.map fun pk => Wwendland R (ops.substract x pk.pos) h :=
    List.mem_map_of_mem _ hpj
  have hge := le_sum_of_mem_of_nonneg hmem fun w hw => by
    obtain ⟨pk, _, rfl⟩ := List.mem_map.mp hw
    exact Wwendland_nonneg hpi hh
  unfold smoothedDen
  linarith

theorem exists_close_of_densityCount_pos {R : RealOps} {h : ℚ} {neigh : List FluidP}
    {x : Vec3} (hc : 0 < densityCount R h neigh x) :
    ∃ pj ∈ neigh, R.mag (ops.substract x pj.pos) ≤ h := by
  unfold densityCount at hc
  rw [List.length_pos] at hc
  obtain ⟨pj, hpj⟩ := List.exists_mem_of_ne_nil _ hc
  have hm := List.mem_filter.mp hpj
  exact ⟨pj, hm.1, of_decide_eq_true hm.2⟩

theorem updateParticle_spray (R : RealOps) (P : SimulationParams) (dt : ℚ)
    (neighF : Vec3 → List FluidP) (p : DiffuseP)
    (hlt : ((densityCount R P.h (neighF p.pos) p.pos : ℕ) : ℚ) < P.SPRAY) :
    updateParticle R P dt neighF p =
      sprayUpdate dt ((densityCount R P.h (neighF p.pos) p.pos : ℕ) : ℚ) p := by
  simp only [updateParticle]
  rw [if_pos hlt]

theorem updateParticle_empty (R : RealOps) (P : SimulationParams) (dt : ℚ)
    (p : DiffuseP) (hspray : 0 < P.SPRAY) :
    updateParticle R P dt (fun _ => []) p = sprayUpdate dt 0 p := by
  have h0 : densityCount R P.h ([] : List FluidP) p.pos = 0 := rfl
  have := updateParticle_spray R P dt (fun _ => []) p
    (by rw [h0]; push_cast; linarith)
  rw [this, h0]
  norm_num

/-- C5: numeric degeneracies are skipped rather than evaluated.  A source
particle with zero fluid velocity has zero kinetic energy, whose clamp is
0 (the clamp windows being nonnegative and well ordered), so it spawns no
diffuse particles and the orthogonal-frame construction is never entered;
and a persistent particle whose Wendland smoothed-velocity denominator is
zero must have fewer close neighbours than `SPRAY`, hence is advanced
with the spray law instead of the foam or bubble law. -/
theorem c5_degeneracies (R : RealOps) (P : SimulationParams) (dt : ℚ) (u : ℕ → ℚ)
    (neighF : Vec3 → List FluidP) (p : DiffuseP) (s : FluidSrc)
    (hmink : 0 ≤ P.MINK) (hkwin : P.MINK < P.MAXK)
    (hmag : ∀ v, 0 ≤ R.mag v) (hh : 0 < P.h) (hpi : 0 < R.piQ)
    (hspray : 0 < P.SPRAY) :
    (s.vel = ⟨0, 0, 0⟩ → ∀ (i : ℕ) (c : ℤ), spawnForSource R P dt u i c s = []) ∧
    (smoothedDen R P.h (neighF p.pos) p.pos = 0 →
      updateParticle R P dt neighF p =
        sprayUpdate dt ((densityCount R P.h (neighF p.pos) p.pos : ℕ) : ℚ) p) := by
  constructor
  · intro hvel i c
    have he : energyRaw P s = 0 := by
      simp [energyRaw, hvel, ops.dotProduct]
    have hnd : ndiffuseOf P dt s = 0 := by
      unfold ndiffuseOf
      rw [he, phi_eq_zero_of_le hkwin hmink, zero_mul, zero_mul, Int.floor_zero]
    simp [spawnForSource, hnd]
  · intro hden
    apply updateParticle_spray
    by_contra hge
    push_neg at hge
    have hcpos : 0 < densityCount R P.h (neighF p.pos) p.pos := by
      rcases Nat.eq_zero_or_pos (densityCount R P.h (neighF p.pos) p.pos) with hz | hp
      · rw [hz] at hge
        push_cast at hge
        linarith
      · exact hp
    have hex := exists_close_of_densityCount_pos hcpos
    have := smoothedDen_pos hpi hh hmag hex
    linarith

theorem c5_degeneracies_witness :
    spawnForSource R0 baseP 1 u0 0 0 ⟨⟨1, 1, 1⟩, ⟨0, 0, 0⟩, 5, 5⟩ = [] ∧
    updateParticle R0 { baseP with h := 1, SPRAY := 6 } 1 (fun _ => []) pRest =
      sprayUpdate 1 ((densityCount R0 1 ([] : List FluidP) pRest.pos : ℕ) : ℚ) pRest := by
  have hpi : (0 : ℚ) < 1 := by norm_num
  constructor
  · exact (c5_degeneracies ⟨fun _ => 0, fun _ => 0, fun _ => 0, fun _ => 0, 1⟩ baseP 1 u0
      (fun _ => []) pRest ⟨⟨1, 1, 1⟩, ⟨0, 0, 0⟩, 5, 5⟩ (by norm_num [baseP])
      (by norm_num [baseP]) (fun v => le_rfl) (by norm_num [baseP]) hpi
      (by norm_num [baseP])).1 rfl 0 0
  · exact (c5_degeneracies ⟨fun _ => 0, fun _ => 0, fun _ => 0, fun _ => 0, 1⟩
      { baseP with h := 1, SPRAY := 6 } 1 u0 (fun _ => []) pRest
      ⟨⟨1, 1, 1⟩, ⟨0, 0, 0⟩, 5, 5⟩ (by norm_num [baseP]) (by norm_num [baseP])
      (fun v => le_rfl) (by norm_num [baseP]) hpi (by norm_num [baseP])).2 rfl

/-! ## Spray trajectory -/

theorem spray_iter (R : RealOps) (P : SimulationParams) (dt : ℚ) (p : DiffuseP)
    (hspray : 0 < P.SPRAY) : ∀ n : ℕ,
    ((updateParticle R P dt fun _ => [])^[n] p).vel.z = p.vel.z - 981 / 100 * n * dt ∧
    ((updateParticle R P dt fun _ => [])^[n] p).pos.z =
      p.pos.z + p.vel.z * (n * dt) - 981 / 200 * (n * dt) * (n * dt + dt) := by
  intro n
  induction n with
  | zero => simp
  | succ n ih =>
    obtain ⟨hv, hz⟩ := ih
    rw [Function.iterate_succ_apply', updateParticle_empty R P dt _ hspray]
    unfold sprayUpdate
    constructor
    · simp only
      rw [hv]
      push_cast
      ring
    · simp only
      rw [hv, hz]
      push_cast
      ring

/-- C6 amended: under scenario S2 (no fluid neighbours, hence spray every
frame) the code's semi-implicit Euler step gives, after `n` frames of
constant time step `dt`, the vertical position
`z = z0 + vz*t - (g/2)*t*(t + dt)` with `t = n*dt` and `g = 9.81`
exactly; this differs from the claimed analytic trajectory
`z0 + vz*t - (g/2)*t²` by the discretization term `(g/2)*t*dt`. -/
theorem c6_spray_trajectory (R : RealOps) (P : SimulationParams) (dt : ℚ)
    (p : DiffuseP) (n : ℕ) (hspray : 0 < P.SPRAY) :
    ((updateParticle R P dt fun _ => [])^[n] p).pos.z =
      p.pos.z + p.vel.z * (n * dt) - 981 / 200 * (n * dt) * (n * dt + dt) :=
  (spray_iter R P dt p hspray n).2

theorem c6_spray_trajectory_witness :
    (0 : ℚ) < P6.SPRAY ∧
    ((updateParticle R0 P6 1 fun _ => [])^[2] pRest).pos.z = -(2943 / 100) := by
  have hs : (0 : ℚ) < P6.SPRAY := by norm_num [P6, baseP]
  refine ⟨hs, ?_⟩
  rw [c6_spray_trajectory R0 P6 1 pRest 2 hs]
  norm_num [pRest]

/-- C6 counterexample: with `z0 = vz = 0` and `dt = 1`, after one frame
the code yields `z = -9.81` while the claimed analytic trajectory gives
`z = -4.905`; the deviation `4.905` exceeds the claimed `1e-9`
tolerance by nine orders of magnitude. -/
theorem c6_spray_trajectory_cx :
    ((updateParticle R0 P6 1 fun _ => [])^[1] pRest).pos.z = -(981 / 100) ∧
    ¬(|((updateParticle R0 P6 1 fun _ => [])^[1] pRest).pos.z -
        (pRest.pos.z + pRest.vel.z * 1 - 981 / 200 * 1 * 1)| ≤ 1 / 1000000000) := by
  have h1 : ((updateParticle R0 P6 1 fun _ => [])^[1] pRest).pos.z = -(981 / 100) := by
    rw [Function.iterate_one, updateParticle_empty R0 P6 1 pRest (by norm_num [P6, baseP])]
    norm_num [sprayUpdate, pRest]
  refine ⟨h1, ?_⟩
  rw [h1, show pRest.pos.z + pRest.vel.z * 1 - 981 / 200 * 1 * 1 = -(981 / 200) by
    norm_num [pRest]]
  rw [show (-(981 / 100 : ℚ)) - -(981 / 200) = -(981 / 200) by norm_num, abs_neg,
    abs_of_nonneg (by norm_num)]
  norm_num

/-! ## The spawn basis -/

/-- C7: evaluating the spawn basis at source position `(3/4, 0, 0)` with
velocity `(1, 0, 0)` (using the exact Euclidean magnitude `5/4` of the
intermediate vector `(3/4, 1, 0)`), `e1 = (3/5, 4/5, 0)` and
`e1 · v = 3/5 ≠ 0`: the constructed basis is not perpendicular to the
velocity, because the code normalizes a point of the plane through `pos`
rather than a direction vector. -/
theorem c7_e1_not_orthogonal :
    magW ⟨3 / 4, 1, 0⟩ * magW ⟨3 / 4, 1, 0⟩ = ops.dotProduct ⟨3 / 4, 1, 0⟩ ⟨3 / 4, 1, 0⟩ ∧
    0 < magW ⟨3 / 4, 1, 0⟩ ∧
    e1Of R7 ⟨3 / 4, 0, 0⟩ ⟨1, 0, 0⟩ = ⟨3 / 5, 4 / 5, 0⟩ ∧
    ops.dotProduct (e1Of R7 ⟨3 / 4, 0, 0⟩ ⟨1, 0, 0⟩) ⟨1, 0, 0⟩ = 3 / 5 ∧
    ops.dotProduct (e1Of R7 ⟨3 / 4, 0, 0⟩ ⟨1, 0, 0⟩) ⟨1, 0, 0⟩ ≠ 0 := by
  have he : e1Of R7 ⟨3 / 4, 0, 0⟩ ⟨1, 0, 0⟩ = ⟨3 / 5, 4 / 5, 0⟩ := by
    norm_num [e1Of, solveEq, RealOps.normalize, R7, magW, Vec3.mk.injEq]
  refine ⟨by norm_num [magW, ops.dotProduct], by norm_num [magW], he, ?_, ?_⟩ <;>
    rw [he] <;> norm_num [ops.dotProduct]

/-! ## The time-step schedule -/

theorem tstepWhileFuel_ge (ts : List TimeOut) (n : ℤ) :
    ∀ (fuel idx : ℕ), idx ≤ tstepWhileFuel ts n fuel idx := by
  intro fuel
  induction fuel with
  | zero => intro idx; exact le_rfl
  | succ f ih =>
    intro idx
    unfold tstepWhileFuel
    split
    · exact le_trans (Nat.le_succ idx) (ih (idx + 1))
    · exact le_rfl

theorem tstepWhileFuel_inv (ts : List TimeOut) (n : ℤ) :
    ∀ (fuel idx j : ℕ), idx < j → j ≤ tstepWhileFuel ts n fuel idx →
      j < ts.length ∧ (ts.getD j ⟨0, 0⟩).nstep < n := by
  intro fuel
  induction fuel with
  | zero =>
    intro idx j h1 h2
    unfold tstepWhileFuel at h2
    omega
  | succ f ih =>
    intro idx j h1 h2
    unfold tstepWhileFuel at h2
    by_cases hc : idx + 1 < ts.length ∧ (ts.getD (idx + 1) ⟨0, 0⟩).nstep < n
    · rw [if_pos hc] at h2
      rcases Nat.eq_or_lt_of_le (Nat.succ_le_of_lt h1) with heq | hlt
      · exact heq ▸ hc
      · exact ih (idx + 1) j hlt h2
    · rw [if_neg hc] at h2
      omega

theorem tstepWhileFuel_stop (ts : List TimeOut) (n : ℤ) (fuel idx : ℕ)
    (hc : ¬(idx + 1 < ts.length ∧ (ts.getD (idx + 1) ⟨0, 0⟩).nstep < n)) :
    tstepWhileFuel ts n fuel idx = idx := by
  cases fuel with
  | zero => rfl
  | succ f =>
    unfold tstepWhileFuel
    rw [if_neg hc]

theorem tstepWhileFuel_succ_le (ts : List TimeOut) (n : ℤ) (idx : ℕ)
    (hc : idx + 1 < ts.length ∧ (ts.getD (idx + 1) ⟨0, 0⟩).nstep < n) :
    idx + 1 ≤ tstepWhileFuel ts n ts.length idx := by
  cases hlen : ts.length with
  | zero => omega
  | succ f =>
    unfold tstepWhileFuel
    rw [if_pos hc]
    exact tstepWhileFuel_ge ts n f (idx + 1)

theorem tstep_master (ts : List TimeOut) (s : ℤ) : ∀ m : ℕ,
    (∀ j : ℕ, 1 ≤ j → j ≤ idxAfterWhile ts s m →
      j < ts.length ∧ (ts.getD j ⟨0, 0⟩).nstep < s + m) ∧
    idxAfterIf ts s m ≤ idxAfterWhile ts s m := by
  intro m
  induction m with
  | zero =>
    constructor
    · intro j h1 h2
      unfold idxAfterWhile at h2
      omega
    · exact le_rfl
  | succ m ih =>
    obtain ⟨hJ, hle⟩ := ih
    have hW : idxAfterWhile ts s (m + 1) =
        tstepWhileFuel ts (s + m) ts.length (idxAfterWhile ts s m) := rfl
    have hC : idxAfterIf ts s (m + 1) = tstepIf ts (s + m) (idxAfterIf ts s m) := rfl
    constructor
    · intro j h1 h2
      rw [hW] at h2
      by_cases hj : j ≤ idxAfterWhile ts s m
      · obtain ⟨hl, hn⟩ := hJ j h1 hj
        refine ⟨hl, ?_⟩
        push_cast
        linarith
      · push_neg at hj
        obtain ⟨hl, hn⟩ :=
          tstepWhileFuel_inv ts (s + m) ts.length (idxAfterWhile ts s m) j hj h2
        refine ⟨hl, ?_⟩
        push_cast
        linarith
    · rcases Nat.lt_or_ge (idxAfterIf ts s m) (idxAfterWhile ts s m) with hlt | hge
      · have h1 : idxAfterIf ts s (m + 1) ≤ idxAfterIf ts s m + 1 := by
          rw [hC]
          unfold tstepIf
          split <;> omega
        have h2 : idxAfterWhile ts s m ≤ idxAfterWhile ts s (m + 1) := by
          rw [hW]
          exact tstepWhileFuel_ge ts (s + m) ts.length _
        omega
      · have heq : idxAfterIf ts s m = idxAfterWhile ts s m := le_antisymm hle hge
        rw [hC, hW, heq]
        by_cases hc : idxAfterWhile ts s m + 1 < ts.length ∧
            (ts.getD (idxAfterWhile ts s m + 1) ⟨0, 0⟩).nstep < s + m
        · have hstep := tstepWhileFuel_succ_le ts (s + m) (idxAfterWhile ts s m) hc
          unfold tstepIf
          rw [if_pos hc]
          exact hstep
        · rw [tstepWhileFuel_stop ts (s + m) ts.length (idxAfterWhile ts s m) hc]
          unfold tstepIf
          rw [if_neg hc]

theorem tstep_catchup (ts : List TimeOut) (s : ℤ) (m : ℕ)
    (hlt : idxAfterIf ts s m < idxAfterWhile ts s m) :
    idxAfterIf ts s (m + 1) = idxAfterIf ts s m + 1 := by
  obtain ⟨hJ, _⟩ := tstep_master ts s m
  have h := hJ (idxAfterIf ts s m + 1) (by omega) (by omega)
  show tstepIf ts (s + m) (idxAfterIf ts s m) = idxAfterIf ts s m + 1
  unfold tstepIf
  rw [if_pos ⟨h.1, h.2⟩]

/-- C8 counterexample: with the schedule `ts0 = [(0,1), (2,2), (3,3)]`
and a run starting at frame 5, after the first frame the code's single
`if` has advanced the index only to 1 (time step 2), while the claimed
while-loop semantics advances it to 2 (time step 3): the selected time
steps differ. -/
theorem c8_timestep_if_cx :
    idxAfterIf ts0 5 1 = 1 ∧ idxAfterWhile ts0 5 1 = 2 ∧
    (ts0.getD (idxAfterIf ts0 5 1) ⟨0, 0⟩).tout ≠
      (ts0.getD (idxAfterWhile ts0 5 1) ⟨0, 0⟩).tout := by
  refine ⟨by decide, by decide, by decide⟩

/-- C8 amended: the driver advances the schedule index once per frame
with an `if`, not a while loop: the index moves past at most one entry
per frame, never exceeds the index of the spec's while-loop semantics,
and whenever it lags behind the while-loop index it advances by exactly
one entry in the next frame (catching up at one entry per frame). -/
theorem c8_timestep_if_advance (ts : List TimeOut) (s : ℤ) (m : ℕ) :
    idxAfterIf ts s m ≤ idxAfterWhile ts s m ∧
    idxAfterIf ts s (m + 1) ≤ idxAfterIf ts s m + 1 ∧
    (idxAfterIf ts s m < idxAfterWhile ts s m →
      idxAfterIf ts s (m + 1) = idxAfterIf ts s m + 1) := by
  refine ⟨(tstep_master ts s m).2, ?_, fun h => tstep_catchup ts s m h⟩
  show tstepIf ts (s + m) (idxAfterIf ts s m) ≤ idxAfterIf ts s m + 1
  unfold tstepIf
  split <;> omega

theorem c8_timestep_if_advance_witness :
    idxAfterIf ts0 5 2 = idxAfterIf ts0 5 1 + 1 :=
  (c8_timestep_if_advance ts0 5 1).2.2 (by decide)

/-! ## Newborn ids -/

theorem spawnForSource_ids (R : RealOps) (P : SimulationParams) (dt : ℚ) (u : ℕ → ℚ)
    (i : ℕ) (c : ℤ) (s : FluidSrc) :
    (spawnForSource R P dt u i c s).map (fun p => p.id) =
      (List.range (ndiffuseOf P dt s).toNat).map fun j : ℕ => wrap32 (c + (j : ℤ)) := by
  unfold spawnForSource
  by_cases h : 1 ≤ ndiffuseOf P dt s
  · rw [if_pos h, List.map_map]
    rfl
  · rw [if_neg h]
    have h0 : (ndiffuseOf P dt s).toNat = 0 := by omega
    rw [h0]
    rfl

theorem spawnFrame_ids (R : RealOps) (P : SimulationParams) (dt : ℚ) (u : ℕ → ℚ)
    (srcs : List FluidSrc) : ∀ (i : ℕ) (c : ℤ),
    (spawnFrame R P dt u i c srcs).map (fun p => p.id) =
      (List.range (totalSpawn P dt srcs)).map fun j : ℕ => wrap32 (c + (j : ℤ)) := by
  induction srcs with
  | nil => intro i c; rfl
  | cons s ss ih =>
    intro i c
    have hts : totalSpawn P dt (s :: ss) =
        (ndiffuseOf P dt s).toNat + totalSpawn P dt ss := by
      simp [totalSpawn]
    rw [show spawnFrame R P dt u i c (s :: ss) =
        spawnForSource R P dt u i c s ++
          spawnFrame R P dt u (i + (ndiffuseOf P dt s).toNat)
            (c + (ndiffuseOf P dt s).toNat) ss from rfl]
    rw [List.map_append, spawnForSource_ids, ih, hts, List.range_add,
      List.map_append, List.map_map]
    congr 1
    apply List.map_congr_left
    intro j hj
    simp only [Function.comp_apply]
    congr 1
    push_cast
    ring

theorem runNewbornIds_eq (R : RealOps) (P : SimulationParams) (u : ℕ → ℚ) :
    ∀ (frames : List (ℚ × List FluidSrc)) (c : ℤ),
    runNewbornIds R P u c frames =
      (List.range (runTotal P frames)).map fun j : ℕ => wrap32 (c + (j : ℤ)) := by
  intro frames
  induction frames with
  | nil => intro c; rfl
  | cons fr rest ih =>
    intro c
    obtain ⟨dt, srcs⟩ := fr
    rw [show runNewbornIds R P u c ((dt, srcs) :: rest) =
        (spawnFrame R P dt u 0 c srcs).map (fun p => p.id) ++
          runNewbornIds R P u (c + totalSpawn P dt srcs) rest from rfl]
    rw [spawnFrame_ids, ih, show runTotal P ((dt, srcs) :: rest) =
        totalSpawn P dt srcs + runTotal P rest from rfl, List.range_add,
      List.map_append, List.map_map]
    congr 1
    apply List.map_congr_left
    intro j hj
    simp only [Function.comp_apply]
    congr 1
    push_cast
    ring

theorem wrap32_eq_self {n : ℤ} (h1 : -(2 ^ 31) ≤ n) (h2 : n < 2 ^ 31) : wrap32 n = n := by
  unfold wrap32
  rw [Int.emod_eq_of_lt (by linarith) (by norm_num; linarith)]
  ring

/-- C9 amended: diffuse ids are drawn from a monotonically increasing
64-bit counter but stored into 32-bit `int` fields; for a run whose
per-source spawn counts are all `int`-representable (outside that range
line 398's double-to-int conversion is undefined) and which assigns at
most `2^31` ids in total (with nonnegative starting counter), the stored
newborn ids form a single strictly increasing sequence across the whole
run — within a frame and across frames — so no id repeats or regresses. -/
theorem c9_ids_strictly_increasing (R : RealOps) (P : SimulationParams) (u : ℕ → ℚ)
    (c : ℤ) (frames : List (ℚ × List FluidSrc))
    (hc : 0 ≤ c) (htot : c + runTotal P frames ≤ 2 ^ 31)
    (_hrep : ∀ f ∈ frames, ∀ s ∈ f.2,
      -(2 ^ 31) ≤ ndiffuseOf P f.1 s ∧ ndiffuseOf P f.1 s < 2 ^ 31) :
    List.Pairwise (· < ·) (runNewbornIds R P u c frames) := by
  rw [runNewbornIds_eq, List.pairwise_map]
  refine (List.pairwise_lt_range (runTotal P frames)).imp_of_mem ?_
  intro a b ha hb hab
  rw [List.mem_range] at ha hb
  have hwa : wrap32 (c + a) = c + a := by
    refine wrap32_eq_self (by push_cast; omega) ?_
    have : (a : ℤ) < runTotal P frames := by exact_mod_cast ha
    omega
  have hwb : wrap32 (c + b) = c + b := by
    refine wrap32_eq_self (by push_cast; omega) ?_
    have : (b : ℤ) < runTotal P frames := by exact_mod_cast hb
    omega
  rw [hwa, hwb]
  omega

theorem c9_ids_strictly_increasing_witness :
    (0 : ℤ) ≤ 0 ∧
    List.Pairwise (· < ·)
      (runNewbornIds R0 baseP u0 0 [(2, [⟨⟨0, 0, 0⟩, ⟨2, 0, 0⟩, 2, 0⟩])]) := by
  have hnd : ndiffuseOf baseP 2 ⟨⟨0, 0, 0⟩, ⟨2, 0, 0⟩, 2, 0⟩ = 2 := by
    unfold ndiffuseOf
    rw [show energyRaw baseP ⟨⟨0, 0, 0⟩, ⟨2, 0, 0⟩, 2, 0⟩ = 2 by
      norm_num [energyRaw, ops.dotProduct, baseP]]
    rw [show baseP.MINK = 0 from rfl, show baseP.MAXK = 1 from rfl,
      show baseP.MINTA = 0 from rfl, show baseP.MAXTA = 1 from rfl,
      show baseP.MINWC = 0 from rfl, show baseP.MAXWC = 1 from rfl,
      show baseP.KTA = 1 from rfl, show baseP.KWC = 1 from rfl]
    rw [phi_eq_one_of_le (by norm_num) (by norm_num),
      phi_eq_zero_of_le (by norm_num) (by norm_num)]
    norm_num
  have hrt : runTotal baseP [(2, [⟨⟨0, 0, 0⟩, ⟨2, 0, 0⟩, 2, 0⟩])] = 2 := by
    simp [runTotal, totalSpawn, hnd]
  refine ⟨le_rfl, c9_ids_strictly_increasing R0 baseP u0 0 _ le_rfl ?_ ?_⟩
  · rw [hrt]
    norm_num
  · intro f hf s hs
    simp only [List.mem_singleton] at hf
    subst hf
    simp only [List.mem_singleton] at hs
    subst hs
    constructor
    · show -(2 ^ 31) ≤ ndiffuseOf baseP 2 ⟨⟨0, 0, 0⟩, ⟨2, 0, 0⟩, 2, 0⟩
      rw [hnd]
      norm_num
    · show ndiffuseOf baseP 2 ⟨⟨0, 0, 0⟩, ⟨2, 0, 0⟩, 2, 0⟩ < 2 ^ 31
      rw [hnd]
      norm_num

/-- C9 counterexample: a two-frame `P9` run in which every per-source
spawn count fits the source's `int` storage — `2^31 - 1` newborns in the
first frame (`tout = 1`) and 2 in the second (`tout = 2/(2^31 - 1)`) —
yet the 64-bit id counter crosses `2^31` during the second frame, so the
second frame's stored ids are `[2^31 - 1, -2^31]`: the id assigned last
is smaller than the one assigned just before it (and than every earlier
id), so the run's id sequence is not strictly increasing and regresses,
contrary to the claim. -/
theorem c9_ids_wrap_cx :
    ndiffuseOf P9 1 src9 = 2 ^ 31 - 1 ∧
    ndiffuseOf P9 (2 / (2 ^ 31 - 1)) src9 = 2 ∧
    (spawnFrame R0 P9 (2 / (2 ^ 31 - 1)) u0 0 (2 ^ 31 - 1) [src9]).map (fun p => p.id) =
      [2 ^ 31 - 1, -(2 ^ 31)] ∧
    ids9.length = 2 ^ 31 + 1 ∧
    ¬ List.Pairwise (· < ·) ids9 := by
  have hE : energyRaw P9 src9 = 1 := by
    norm_num [energyRaw, ops.dotProduct, P9, baseP, src9]
  have hnd1 : ndiffuseOf P9 1 src9 = 2 ^ 31 - 1 := by
    unfold ndiffuseOf
    rw [hE]
    rw [show P9.MINK = 0 from rfl, show P9.MAXK = 1 from rfl,
      show src9.ItaRaw = 2 from rfl, show src9.wcRaw = 0 from rfl,
      show P9.MINTA = 0 from rfl, show P9.MAXTA = 1 from rfl,
      show P9.MINWC = 0 from rfl, show P9.MAXWC = 1 from rfl,
      show P9.KTA = 2 ^ 31 - 1 from rfl, show P9.KWC = 0 from rfl]
    rw [phi_eq_one_of_le (by norm_num) (by norm_num),
      phi_eq_one_of_le (by norm_num) (by norm_num),
      phi_eq_zero_of_le (by norm_num) (by norm_num)]
    norm_num
  have hnd2 : ndiffuseOf P9 (2 / (2 ^ 31 - 1)) src9 = 2 := by
    unfold ndiffuseOf
    rw [hE]
    rw [show P9.MINK = 0 from rfl, show P9.MAXK = 1 from rfl,
      show src9.ItaRaw = 2 from rfl, show src9.wcRaw = 0 from rfl,
      show P9.MINTA = 0 from rfl, show P9.MAXTA = 1 from rfl,
      show P9.MINWC = 0 from rfl, show P9.MAXWC = 1 from rfl,
      show P9.KTA = 2 ^ 31 - 1 from rfl, show P9.KWC = 0 from rfl]
    rw [phi_eq_one_of_le (by norm_num) (by norm_num),
      phi_eq_one_of_le (by norm_num) (by norm_num),
      phi_eq_zero_of_le (by norm_num) (by norm_num)]
    norm_num
  have hfr2 : (spawnFrame R0 P9 (2 / (2 ^ 31 - 1)) u0 0 (2 ^ 31 - 1) [src9]).map
      (fun p => p.id) = [2 ^ 31 - 1, -(2 ^ 31)] := by
    rw [spawnFrame_ids]
    rw [show totalSpawn P9 (2 / (2 ^ 31 - 1)) [src9] = 2 by
      simp [totalSpawn, hnd2]]
    rw [show List.range 2 = [0, 1] from rfl]
    simp only [List.map_cons, List.map_nil]
    norm_num [wrap32]
  have hrt : runTotal P9 [(1, [src9]), (2 / (2 ^ 31 - 1), [src9])] = 2 ^ 31 + 1 := by
    simp [runTotal, totalSpawn, hnd1, hnd2]
  have hids : ids9 = (List.range (2 ^ 31 + 1)).map fun j : ℕ => wrap32 (0 + (j : ℤ)) := by
    unfold ids9
    rw [runNewbornIds_eq, hrt]
  have hL : ids9.length = 2 ^ 31 + 1 := by
    rw [hids, List.length_map, List.length_range]
  have hget : ∀ k : ℕ, k < 2 ^ 31 + 1 → ids9.getD k 0 = wrap32 (0 + (k : ℤ)) := by
    intro k hk
    rw [hids, List.getD_eq_getElem?_getD, List.getElem?_map, List.getElem?_range hk,
      Option.map_some', Option.getD_some]
  have h1 : ids9.getD (2 ^ 31 - 1) 0 = 2 ^ 31 - 1 := by
    rw [hget (2 ^ 31 - 1) (by norm_num)]
    norm_num [wrap32]
  have h2 : ids9.getD (2 ^ 31) 0 = -(2 ^ 31) := by
    rw [hget (2 ^ 31) (by norm_num)]
    norm_num [wrap32]
  refine ⟨hnd1, hnd2, hfr2, hL, ?_⟩
  intro hpw
  have hb1 : 2 ^ 31 - 1 < ids9.length := by
    rw [hL]
    norm_num
  have hb2 : 2 ^ 31 < ids9.length := by
    rw [hL]
    norm_num
  have hpg := List.pairwise_iff_get.mp hpw ⟨2 ^ 31 - 1, hb1⟩ ⟨2 ^ 31, hb2⟩ (by
    show (2 : ℕ) ^ 31 - 1 < 2 ^ 31
    norm_num)
  rw [List.get_eq_getElem, List.get_eq_getElem] at hpg
  rw [List.getD_eq_getElem?_getD, List.getElem?_eq_getElem hb1, Option.getD_some] at h1
  rw [List.getD_eq_getElem?_getD, List.getElem?_eq_getElem hb2, Option.getD_some] at h2
  rw [h1, h2] at hpg
  norm_num at hpg

/-! ## Append of newborns -/

/-- C10: the end-of-frame pool is exactly the cull survivors followed by
the frame's newborns in spawn order; the append applies no domain or ttl
check, so a newborn with an out-of-domain position is present in the
pool and in the frame's emitted text output; and no cull output ever
contains an out-of-domain particle, so such a newborn is removed at the
next frame's cull (if still out of the domain box then). -/
theorem c10_append_no_checks (R : RealOps) (P : SimulationParams) (dt : ℚ)
    (neighF : Vec3 → List FluidP) (pool newborns : List DiffuseP) (nb : DiffuseP)
    (hnb : nb ∈ newborns) :
    framePersist R P dt neighF pool newborns =
      cullStep P (pool.map (updateParticle R P dt neighF)) ++ newborns ∧
    nb ∈ framePersist R P dt neighF pool newborns ∧
    (nb.pos, ttypeOf P nb.density) ∈ emitText P (framePersist R P dt neighF pool newborns) ∧
    (∀ (pool2 : List DiffuseP) (q : DiffuseP), q ∈ cullStep P pool2 →
      P.MINX < q.pos.x ∧ q.pos.x < P.MAXX ∧ P.MINY < q.pos.y ∧ q.pos.y < P.MAXY ∧
        P.MINZ < q.pos.z ∧ q.pos.z < P.MAXZ) := by
  refine ⟨rfl, ?_, ?_, ?_⟩
  · unfold framePersist
    exact List.mem_append_right _ hnb
  · unfold emitText framePersist
    exact List.mem_map_of_mem _ (List.mem_append_right _ hnb)
  · intro pool2 q hq
    exact ((mem_cullStep_iff P pool2 q).mp hq).2.2

theorem c10_append_no_checks_witness :
    nbOut ∈ framePersist R0 baseP 1 (fun _ => []) [] [nbOut] ∧
    (nbOut.pos, ttypeOf baseP nbOut.density) ∈
      emitText baseP (framePersist R0 baseP 1 (fun _ => []) [] [nbOut]) ∧
    baseP.MAXX ≤ nbOut.pos.x :=
  ⟨(c10_append_no_checks R0 baseP 1 (fun _ => []) [] [nbOut] nbOut (by simp)).2.1,
   (c10_append_no_checks R0 baseP 1 (fun _ => []) [] [nbOut] nbOut (by simp)).2.2.1,
   by norm_num [baseP, nbOut]⟩
